import Mathlib

/-!
Verification of the e6_dl download orchestrator against its source.

Shallow embedding of the repository's core modules:
* `backend/backend.py`   — rate limiter, pool-download protocol, update checker
* `backend/database.py`  — ledger store (SQLite tables modelled as row lists),
                           relative/absolute path conversion, consistency verifier
* `backend/downloader.py`— per-item payload download
* `backend/models.py`    — `Pool` and `Post` records

Machine integers are modelled as `Nat`/`Int`; wall-clock times as `Int`
(`time.time()` values); path strings as `List Char` so that byte-for-byte
claims are about the actual character sequences; the filesystem as the list
of paths that currently exist; the SQLite tables as lists of rows with
INSERT OR REPLACE modelled as delete-the-key-then-prepend.
-/

namespace E6dl

/-! ## Rate limiter (`backend/backend.py`, lines 22–34)

`rate_limited_request` runs inside `async with self.rate_limit` (a semaphore
of capacity 1, so calls are fully serialized).  The body computes
`elapsed = time.time() - last_request_time`, sleeps `RATE_LIMIT - elapsed`
when `elapsed < RATE_LIMIT`, awaits the wrapped function, and — only when the
function returns without raising — assigns `last_request_time = time.time()`.
The `async with` releases the permit whether or not the function raised.

The state records the shared marker, the wall clock at the moment the
semaphore becomes free for the next queued caller, and whether the permit is
free.  An operation is abstracted by its running time and whether it raises.
-/

/-- RATE_LIMIT = 2 (backend.py line 14). -/
def RATE_LIMIT : Int := 2

/-- Shared rate-limiter state: `last_request_time`, the wall clock at which
the semaphore is next available, and whether the permit is free. -/
structure RLState where
  last_request_time : Int
  clock : Int
  permit_free : Bool
deriving DecidableEq

/-- One wrapped operation, abstracted by its duration and whether it
returns normally (`ok = true`) or raises (`ok = false`). -/
structure RLOp where
  dur : Nat
  ok : Bool
deriving DecidableEq

/-- The wall-clock instant at which the wrapped function is invoked:
`if elapsed < RATE_LIMIT: await asyncio.sleep(RATE_LIMIT - elapsed)`
(backend.py lines 28–30). -/
def rlStart (st : RLState) : Int :=
  if st.clock - st.last_request_time < RATE_LIMIT then
    st.clock + (RATE_LIMIT - (st.clock - st.last_request_time))
  else
    st.clock

/-- One execution of `rate_limited_request` (backend.py lines 25–34):
returns the invocation start time of the wrapped function and the state
after the `async with` block exits.  On normal return the marker is set to
the completion time (line 33); if the function raises, the assignment on
line 33 is skipped, but the `async with` still releases the permit. -/
def rateLimitedRequest (st : RLState) (op : RLOp) : Int × RLState :=
  let s := rlStart st
  let fin := s + (op.dur : Int)
  ( s,
    if op.ok then
      { last_request_time := fin, clock := fin, permit_free := true }
    else
      { last_request_time := st.last_request_time, clock := fin, permit_free := true } )

/-- A queue of concurrently issued callers, released one at a time by the
capacity-1 semaphore: each list element records the invocation start time
and whether that operation completed normally. -/
def rlRun (st : RLState) : List RLOp → List (Int × Bool)
  | [] => []
  | op :: rest =>
      let r := rateLimitedRequest st op
      (r.1, op.ok) :: rlRun r.2 rest

/-! ## Path conversion (`backend/database.py`, lines 49–74)

`_to_relative_path` resolves its argument and the base directory, compares
`str(abs_path).startswith(str(base_path))`, and on a hit stores
`str(abs_path.relative_to(base_path))`; `relative_to` raising `ValueError`
(string prefix without component prefix) falls into the `except` branch,
which returns `str(absolute_path)` — the original argument.  Otherwise the
resolved absolute string is stored.  `_to_absolute_path` returns absolute
stored paths unchanged and resolves relative ones against the base
directory.

Paths are modelled byte-for-byte as `List Char`; a resolved absolute path is
also viewed through its `pathlib` parts (the components between the
separators).  `Path(...).resolve()` is modelled symlink-free: parse into
components, drop "." components, apply ".." by removing the previous
component.  Callers of `_to_relative_path` in this repository pass absolute
paths, and the model covers that case.
-/

/-- A path string, byte for byte. -/
abbrev PathStr := List Char

/-- The `pathlib` parts of a path (components between separators). -/
abbrev PathParts := List (List Char)

/-- `str()` of an absolute path with the given parts: `"/a/b/c"`. -/
def renderAbs (parts : PathParts) : PathStr :=
  (parts.map (fun c => '/' :: c)).flatten

/-- `str()` of the relative path produced by `Path.relative_to`: the parts
joined by `"/"`, or `"."` when the paths were equal. -/
def renderRel (parts : PathParts) : PathStr :=
  match parts with
  | [] => ['.']
  | _ => List.intercalate ['/'] parts

/-- Keep a component during parsing: `pathlib` drops empty and `"."`
components. -/
def keepComp (c : List Char) : Bool := !c.isEmpty && !(c == ['.'])

/-- Parse a path string into its components. -/
def parseParts (s : PathStr) : PathParts :=
  (s.splitOn '/').filter keepComp

/-- `".."` handling of `Path.resolve()` (symlink-free model): a `".."`
component removes the previous component. -/
def resolveParts (parts : PathParts) : PathParts :=
  parts.foldl (fun acc c => if c = ['.', '.'] then acc.dropLast else acc ++ [c]) []

/-- A well-formed resolved component: non-empty, separator-free, and not a
relative marker. -/
def CleanComp (c : List Char) : Prop :=
  c ≠ [] ∧ '/' ∉ c ∧ c ≠ ['.'] ∧ c ≠ ['.', '.']

/-- All components well-formed. -/
def CleanParts (p : PathParts) : Prop := ∀ c ∈ p, CleanComp c

instance (c : List Char) : Decidable (CleanComp c) := by
  unfold CleanComp; infer_instance

instance (p : PathParts) : Decidable (CleanParts p) := by
  unfold CleanParts; infer_instance

/-- The database's path-conversion context: the resolved parts of
`base_download_dir`. -/
structure PathCtx where
  base : PathParts

/-- `DownloadDatabase._to_relative_path` (database.py lines 49–63),
modelled for absolute inputs (the arguments its callers pass).
`resolveParts (parseParts absolute_path)` is `Path(absolute_path).resolve()`;
the outer test is `str(abs_path).startswith(str(base_path))`; the inner test
is whether `abs_path.relative_to(base_path)` succeeds (it raises `ValueError`
exactly when the base's parts are not a prefix of the path's parts, in which
case the `except` branch returns the original argument). -/
def toRelativePath (ctx : PathCtx) (absolute_path : PathStr) : PathStr :=
  if (renderAbs ctx.base).isPrefixOf (renderAbs (resolveParts (parseParts absolute_path))) then
    if ctx.base <+: resolveParts (parseParts absolute_path) then
      renderRel ((resolveParts (parseParts absolute_path)).drop ctx.base.length)
    else
      absolute_path
  else
    renderAbs (resolveParts (parseParts absolute_path))

/-- `DownloadDatabase._to_absolute_path` (database.py lines 65–74). -/
def toAbsolutePath (ctx : PathCtx) (stored : PathStr) : PathStr :=
  if stored.head? = some '/' then stored
  else renderAbs (resolveParts (ctx.base ++ parseParts stored))

/-! ## Artist attribution (`backend/backend.py`, line 79)

`artist = first_post.artists[1] if first_post.artists and
first_post.artists[0] == "conditional_dnp" and len(first_post.artists) > 1
else first_post.artists[0] if first_post.artists else "Unknown Artist"`
-/

/-- Attribution derived from the first post's artist-tag list
(backend.py line 79). -/
def detectArtist : List String → String
  | [] => "Unknown Artist"
  | [a] => a
  | a :: b :: _ => if a = "conditional_dnp" then b else a

/-! ## Ledger store (`backend/database.py`)

The two SQLite tables are modelled as lists of rows.  `INSERT OR REPLACE`
deletes any row with the same primary key and prepends the new row; `SELECT`
with a `WHERE` clause is `List.filter`; row order within a table carries no
meaning for the claims below. -/

/-- A row of the `pools` table (database.py lines 22–31; the timestamp
column carries no information used by any claim and is omitted). -/
structure PoolRow where
  id : Nat
  name : String
  artist : String
  folder_path : PathStr
  post_count : Nat
deriving DecidableEq

/-- A row of the `downloaded_posts` table (database.py lines 34–44;
primary key `(post_id, pool_id)`; the timestamp column is omitted). -/
structure PostRow where
  post_id : Nat
  pool_id : Nat
  file_path : PathStr
  position : Nat
deriving DecidableEq

/-- The ledger database. -/
structure DB where
  pools : List PoolRow
  posts : List PostRow
deriving DecidableEq

/-- A freshly initialized database. -/
def emptyDB : DB := ⟨[], []⟩

/-- `get_pool_info` (database.py lines 86–99): the row for the pool, with
`folder_path` converted back to an absolute path. -/
def getPoolInfo (ctx : PathCtx) (pool_id : Nat) (db : DB) : Option PoolRow :=
  match db.pools.find? (fun r => r.id == pool_id) with
  | some r => some { r with folder_path := toAbsolutePath ctx r.folder_path }
  | none => none

/-- `save_pool` (database.py lines 101–113): store the path relative, then
INSERT OR REPLACE by primary key `id`. -/
def savePool (ctx : PathCtx) (pool_id : Nat) (name artist : String)
    (folder_path : PathStr) (post_count : Nat) (db : DB) : DB :=
  { db with pools := ⟨pool_id, name, artist, toRelativePath ctx folder_path, post_count⟩ ::
      db.pools.filter (fun r => !(r.id == pool_id)) }

/-- `get_downloaded_posts` (database.py lines 115–120). -/
def getDownloadedPosts (pool_id : Nat) (db : DB) : List Nat :=
  (db.posts.filter (fun r => r.pool_id == pool_id)).map (fun r => r.post_id)

/-- `mark_post_downloaded` (database.py lines 122–134): store the path
relative, then INSERT OR REPLACE by composite key `(post_id, pool_id)`. -/
def markPostDownloaded (ctx : PathCtx) (post_id pool_id : Nat) (file_path : PathStr)
    (position : Nat) (db : DB) : DB :=
  { db with posts := ⟨post_id, pool_id, toRelativePath ctx file_path, position⟩ ::
      db.posts.filter (fun r => !(r.post_id == post_id && r.pool_id == pool_id)) }

/-- `get_missing_posts` (database.py lines 136–140):
`list(set(all_post_ids) - set(downloaded))`; the Python sets are modelled
as finsets (iteration order of the result is unspecified). -/
def getMissingPosts (pool_id : Nat) (all_post_ids : List Nat) (db : DB) : Finset Nat :=
  all_post_ids.toFinset \ (getDownloadedPosts pool_id db).toFinset

/-- The filesystem, as the collection of paths that currently exist. -/
abbrev FileSystem := List PathStr

/-- `os.path.exists` over the modelled filesystem. -/
def fileExists (fs : FileSystem) (path : PathStr) : Bool := fs.contains path

/-- `verify_downloaded_files` (database.py lines 142–198): fetch the pool's
post rows; if the pool has no record, return `[]` without touching anything;
otherwise delete every row whose stored path does not exist on the
filesystem and return the removed post IDs.  The orphaned-file scan
(lines 175–185) only logs and mutates nothing, and is not modelled. -/
def verifyDownloadedFiles (ctx : PathCtx) (pool_id : Nat) (fs : FileSystem) (db : DB) :
    List Nat × DB :=
  let records := db.posts.filter (fun r => r.pool_id == pool_id)
  match getPoolInfo ctx pool_id db with
  | none => ([], db)
  | some _ =>
      ( (records.filter (fun r => !(fileExists fs (toAbsolutePath ctx r.file_path)))).map
          (fun r => r.post_id),
        { db with posts := (db.posts.filter
            (fun r => !(r.pool_id == pool_id &&
              !(fileExists fs (toAbsolutePath ctx r.file_path))))) } )

/-- Spec-side reading of §3/§4.2: an ItemRecord for `(post_id, pool_id)`
exists in the ledger — "recorded as downloaded". -/
def RecordedDownloaded (pool_id post_id : Nat) (db : DB) : Prop :=
  ∃ r ∈ db.posts, r.post_id = post_id ∧ r.pool_id = pool_id

instance (pool_id post_id : Nat) (db : DB) : Decidable (RecordedDownloaded pool_id post_id db) := by
  unfold RecordedDownloaded; infer_instance

/-- One `mark_post_downloaded` write, for reasoning about sequences of
ledger writes. -/
structure MarkOp where
  post_id : Nat
  pool_id : Nat
  file_path : PathStr
  position : Nat
deriving DecidableEq

/-- Apply a sequence of `mark_post_downloaded` writes in order. -/
def applyMarks (ctx : PathCtx) (ops : List MarkOp) (db : DB) : DB :=
  ops.foldl (fun d o => markPostDownloaded ctx o.post_id o.pool_id o.file_path o.position d) db

/-! ## API data records (`backend/models.py`) -/

/-- `Pool` (models.py lines 5–17). -/
structure Pool where
  id : Nat
  name : String
  post_ids : List Nat
  creator_name : String
  post_count : Nat
deriving DecidableEq

/-- `Post` (models.py lines 19–31). -/
structure Post where
  id : Nat
  artists : List String
  is_deleted : Bool
  file_url : Option String
  file_ext : PathStr
deriving DecidableEq

/-! ## Payload download (`backend/downloader.py`) and per-post dispatch
(`backend/backend.py`, lines 125–153) -/

/-- Outcome of the HTTP GET for a payload URL: a response with a status
code, or a raised `aiohttp.ClientError`. -/
inductive NetResult where
  | response (status : Nat)
  | clientError
deriving DecidableEq

/-- The output file name `f"{index + 1}.{post.file_ext}"`
(downloader.py line 19, backend.py line 142). -/
def fileName (index : Nat) (ext : PathStr) : PathStr :=
  (Nat.repr (index + 1)).data ++ '.' :: ext

/-- `os.path.join` for a directory not ending in a separator. -/
def pathJoin (dir name : PathStr) : PathStr := dir ++ '/' :: name

/-- `download_image` (downloader.py lines 9–36), as its effect on the
filesystem: the payload file is written only when the post is not flagged
deleted, has a payload URL, and the response status is 200; deleted posts,
missing URLs, non-200 statuses and transport errors all return with no
write. -/
def downloadImage (post : Post) (index : Nat) (working_dir : PathStr)
    (net : NetResult) (fs : FileSystem) : FileSystem :=
  if post.is_deleted then fs
  else
    match post.file_url with
    | none => fs
    | some _ =>
        match net with
        | .response status =>
            if status ≠ 200 then fs
            else pathJoin working_dir (fileName index post.file_ext) :: fs
        | .clientError => fs

/-- Per-item outcome reported by `download_post`. -/
inductive PostStatus where
  | downloaded
  | failed
deriving DecidableEq

/-- `download_post` (backend.py lines 138–153).  `fetched` is the result of
the rate-limited `fetch_post`; `net` the outcome of the payload HTTP GET.
Returns the reported `(post_id, status)` outcome together with the
filesystem and ledger after the call.  Note the source calls
`mark_post_downloaded` unconditionally after `download_image` whenever the
metadata fetch succeeded. -/
def downloadPost (ctx : PathCtx) (fetched : Option Post) (post_id index : Nat)
    (directory : PathStr) (pool_id : Nat) (net : NetResult) (fs : FileSystem) (db : DB) :
    (Nat × PostStatus) × FileSystem × DB :=
  match fetched with
  | some post =>
      ((post.id, .downloaded),
        downloadImage post index directory net fs,
        markPostDownloaded ctx post.id pool_id
          (pathJoin directory (fileName index post.file_ext)) index db)
  | none => ((post_id, .failed), fs, db)

/-- The dispatch plan of `download_pool` (backend.py lines 125–136): each
work-set item is paired with the output path used by `download_post` and
`download_image`; the ordinal is `pool.post_ids.index(post_id)` — the index
in the authoritative full post-ID list (line 128).  `extOf` gives the file
extension of each fetched post. -/
def dispatchPlan (pool : Pool) (work : List Nat) (directory : PathStr)
    (extOf : Nat → PathStr) : List (Nat × PathStr) :=
  work.map (fun post_id =>
    (post_id, pathJoin directory (fileName (pool.post_ids.indexOf post_id) (extOf post_id))))

/-! ## Pool-level planning flows (`backend/backend.py`) -/

/-- The skip-existing planning steps of `download_pool` (backend.py lines
99–118): run the consistency verifier, then compute the missing posts
against the full post-ID list — that missing set is the work set.  (The
earlier protocol steps — metadata fetch, artist detection, directory
resolution, `save_pool` — touch only the pools table and do not alter the
downloaded-posts rows these claims are about.) -/
def downloadPoolWorkSet (ctx : PathCtx) (pool : Pool) (fs : FileSystem) (db : DB) :
    Finset Nat × DB :=
  (getMissingPosts pool.id pool.post_ids (verifyDownloadedFiles ctx pool.id fs db).2,
    (verifyDownloadedFiles ctx pool.id fs db).2)

/-- The per-pool skip-existing flow of `process_pool_ids` (backend.py lines
230–244): the missing set is first computed from the ledger as-is (line
232); when it is empty the pool is reported "already complete" and skipped
(line 238) — `download_pool`, and with it the verifier, never runs.
Otherwise `download_pool` runs and plans the work set after verification.
Returns `none` when the pool was skipped, otherwise the planned work set,
together with the resulting ledger. -/
def processPoolSkipExisting (ctx : PathCtx) (pool : Pool) (fs : FileSystem) (db : DB) :
    Option (Finset Nat) × DB :=
  if (getMissingPosts pool.id pool.post_ids db).card = 0 then (none, db)
  else
    (some (downloadPoolWorkSet ctx pool fs db).1, (downloadPoolWorkSet ctx pool fs db).2)

/-! ## Update checker (`backend/backend.py`, lines 155–204) -/

/-- The result dictionary of `check_pool_for_updates`. -/
structure UpdateInfo where
  pool_id : Nat
  pool_name : String
  has_updates : Bool
  old_count : Nat
  new_count : Nat
  new_posts : Nat
deriving DecidableEq

/-- `check_pool_for_updates` (backend.py lines 155–204), given the
successfully fetched live pool.  The ledger is threaded through and
returned so that its preservation is part of the statement; the body
performs only reads. -/
def checkPoolForUpdates (ctx : PathCtx) (current_pool : Pool) (db : DB) :
    UpdateInfo × DB :=
  match getPoolInfo ctx current_pool.id db with
  | none =>
      (⟨current_pool.id, current_pool.name, true, 0, current_pool.post_count,
        current_pool.post_ids.length⟩, db)
  | some stored_pool =>
      if stored_pool.post_count < current_pool.post_count then
        (⟨current_pool.id, current_pool.name, true, stored_pool.post_count,
          current_pool.post_count,
          (getMissingPosts current_pool.id current_pool.post_ids db).card⟩, db)
      else
        (⟨current_pool.id, current_pool.name, false, stored_pool.post_count,
          current_pool.post_count, 0⟩, db)

end E6dl

namespace E6dl

/-! ### Rate-limiter lemmas -/

/-- The wrapped function never starts earlier than the marker plus the
interval. -/
theorem rlStart_ge (st : RLState) : st.last_request_time + RATE_LIMIT ≤ rlStart st := by
  unfold rlStart
  split
  · linarith
  · next h => simp only [not_lt] at h; unfold RATE_LIMIT at *; linarith

/-- After a successful call, the marker equals the completion time, which is
at least the invocation start time. -/
theorem rateLimitedRequest_ok_last (st : RLState) (op : RLOp) (h : op.ok = true) :
    (rateLimitedRequest st op).2.last_request_time = (rateLimitedRequest st op).1 + op.dur ∧
    (rateLimitedRequest st op).1 ≤ (rateLimitedRequest st op).2.last_request_time := by
  simp only [rateLimitedRequest, h, if_true]
  constructor
  · trivial
  · have : (0 : Int) ≤ (op.dur : Int) := Int.ofNat_nonneg _
    omega

/-- The start time paired with the outcome flag at the head of a queued run. -/
theorem rlRun_head (st : RLState) (op : RLOp) (rest : List RLOp) :
    (rlRun st (op :: rest)).head? = some (rlStart st, op.ok) := rfl

/-- C3 counterexample: with marker 0 and the semaphore acquired at time 100,
an operation that raises after 5 time units leaves `last_request_time` at 0
even though the failed attempt ended at time 105 — the shared last-call-time
marker is NOT updated when the operation raises, contradicting the claim. -/
theorem c3_counterexample :
    (rateLimitedRequest ⟨0, 100, true⟩ ⟨5, false⟩).2.permit_free = true ∧
    (rateLimitedRequest ⟨0, 100, true⟩ ⟨5, false⟩).1 + 5 = 105 ∧
    (rateLimitedRequest ⟨0, 100, true⟩ ⟨5, false⟩).2.last_request_time = 0 ∧
    (0 : Int) ≠ 105 := by
  refine ⟨rfl, by decide, rfl, by decide⟩

/-- C3 (amended): if the operation passed to `rate_limited_request` raises,
the shared permit is still released (the `async with` block exits), but the
shared last-call-time marker is NOT updated — it keeps its previous value,
so the time spent on the failed attempt does not count against the rate
budget. -/
theorem c3_raise_releases_permit_marker_unchanged (st : RLState) (op : RLOp)
    (h : op.ok = false) :
    (rateLimitedRequest st op).2.permit_free = true ∧
    (rateLimitedRequest st op).2.last_request_time = st.last_request_time := by
  simp [rateLimitedRequest, h]

/-- Witness for C3's amended theorem at a concrete state and operation. -/
theorem c3_raise_releases_permit_marker_unchanged_witness :
    (rateLimitedRequest ⟨0, 100, true⟩ ⟨5, false⟩).2.permit_free = true ∧
    (rateLimitedRequest ⟨0, 100, true⟩ ⟨5, false⟩).2.last_request_time = 0 :=
  c3_raise_releases_permit_marker_unchanged ⟨0, 100, true⟩ ⟨5, false⟩ rfl

/-- C4 counterexample: a raising call does not advance the marker, so the
next queued call can start immediately: from marker 0 at time 100, a call
that raises instantly is followed by a call starting at the same instant —
the gap between the two consecutive invocation starts is 0 < 2. -/
theorem c4_counterexample :
    (rlRun ⟨0, 100, true⟩ [⟨0, false⟩, ⟨5, true⟩]).map Prod.fst = [100, 100] ∧
    ¬ (100 + RATE_LIMIT ≤ (100 : Int)) := by
  refine ⟨rfl, by decide⟩

/-- C4 (amended): for any queue of concurrently issued rate-limited calls,
whenever a call completes successfully (so line 33 updates the marker to its
completion time), the next call's invocation starts at least `RATE_LIMIT`
after the previous call's start — the marker is measured from completion of
the previous call, so the gap from its start is at least the full interval.
A raising call does not advance the marker, and the guarantee does not hold
across it. -/
theorem c4_gap_after_success (st : RLState) (ops : List RLOp) :
    List.Chain' (fun a b => a.2 = true → a.1 + RATE_LIMIT ≤ b.1) (rlRun st ops) := by
  induction ops generalizing st with
  | nil => exact List.chain'_nil
  | cons op rest ih =>
    show List.Chain' _ (((rateLimitedRequest st op).1, op.ok) ::
      rlRun (rateLimitedRequest st op).2 rest)
    rw [List.chain'_cons']
    refine ⟨?_, ih _⟩
    intro y hy hok
    cases rest with
    | nil => simp [rlRun] at hy
    | cons op2 rest2 =>
      rw [rlRun_head] at hy
      have hy' : y = (rlStart (rateLimitedRequest st op).2, op2.ok) := by
        have := hy
        simp only [Option.mem_def, Option.some.injEq] at this
        exact this.symm
      subst hy'
      have h1 := rlStart_ge (rateLimitedRequest st op).2
      have h2 := rateLimitedRequest_ok_last st op hok
      have h3 : (0 : Int) ≤ (op.dur : Int) := Int.ofNat_nonneg _
      simp only []
      omega

end E6dl

namespace E6dl

/-! ### Artist attribution theorems -/

/-- C7 counterexample: an artist list consisting of the sentinel alone
resolves to the sentinel itself, not to the placeholder label, because the
second branch of the conditional expression falls back to `artists[0]`
whenever the list is non-empty. -/
theorem c7_counterexample :
    detectArtist ["conditional_dnp"] = "conditional_dnp" ∧
    detectArtist ["conditional_dnp"] ≠ "Unknown Artist" := by
  refine ⟨rfl, by decide⟩

/-- C7 (amended): the attribution follows the two-step fallback — if the
first attribute is the sentinel "conditional_dnp" and a second attribute
exists, the second is used; otherwise the first attribute is used if any
exists (including when it is the sentinel itself); otherwise the placeholder
"Unknown Artist" is used.  ["conditional_dnp", "artistA"] resolves to
"artistA", [] resolves to the placeholder, ["soloArtist"] to "soloArtist",
and ["conditional_dnp"] alone resolves to "conditional_dnp" (not the
placeholder). -/
theorem c7_attribution_fallback :
    detectArtist [] = "Unknown Artist" ∧
    (∀ a : String, detectArtist [a] = a) ∧
    (∀ (b : String) (rest : List String),
        detectArtist ("conditional_dnp" :: b :: rest) = b) ∧
    (∀ (a b : String) (rest : List String), a ≠ "conditional_dnp" →
        detectArtist (a :: b :: rest) = a) ∧
    detectArtist ["conditional_dnp", "artistA"] = "artistA" ∧
    detectArtist ["soloArtist"] = "soloArtist" ∧
    detectArtist ["conditional_dnp"] = "conditional_dnp" := by
  refine ⟨rfl, fun a => rfl, fun b rest => by simp [detectArtist],
    fun a b rest h => by simp [detectArtist, h], by simp [detectArtist], rfl, rfl⟩

/-- Witness for C7's amended theorem: the non-sentinel first attribute of a
two-element list is used. -/
theorem c7_attribution_fallback_witness :
    detectArtist ["artistB", "artistC"] = "artistB" :=
  c7_attribution_fallback.2.2.2.1 ("artistB") ("artistC") [] (by decide)

end E6dl

namespace E6dl

/-! ### Path-conversion lemmas and the round-trip theorem -/

/-- Joining parts with separators: a leading component followed by the
slash-prefixed rest. -/
theorem intercalate_slash_cons (c : List Char) (rest : PathParts) :
    List.intercalate ['/'] (c :: rest) = c ++ renderAbs rest := by
  induction rest generalizing c with
  | nil => simp [List.intercalate, renderAbs]
  | cons d rest2 ih =>
    have h1 : List.intercalate ['/'] (c :: d :: rest2) =
        c ++ ['/'] ++ List.intercalate ['/'] (d :: rest2) := by
      simp [List.intercalate, List.intersperse_cons_cons, List.append_assoc]
    rw [h1, ih]
    simp [renderAbs, List.append_assoc]

/-- `renderAbs` distributes over concatenation of parts. -/
theorem renderAbs_append (p q : PathParts) :
    renderAbs (p ++ q) = renderAbs p ++ renderAbs q := by
  simp [renderAbs]

/-- Clean components survive the parse filter. -/
theorem keepComp_of_clean {c : List Char} (h : CleanComp c) : keepComp c = true := by
  obtain ⟨h1, _, h3, _⟩ := h
  simp [keepComp, List.isEmpty_iff, h1, h3]

/-- Parsing the rendered absolute string recovers the parts. -/
theorem parseParts_renderAbs {p : PathParts} (hp : CleanParts p) :
    parseParts (renderAbs p) = p := by
  have h1 : renderAbs p = List.intercalate ['/'] ([] :: p) := by
    rw [intercalate_slash_cons]; simp
  unfold parseParts
  rw [h1, List.splitOn_intercalate]
  · have h0 : ¬ keepComp ([] : List Char) = true := by simp [keepComp]
    rw [List.filter_cons_of_neg h0]
    exact List.filter_eq_self.mpr (fun a ha => keepComp_of_clean (hp a ha))
  · intro l hl
    rcases List.mem_cons.mp hl with h | h
    · subst h; simp
    · exact (hp l h).2.1
  · simp

/-- Parsing the rendered relative string recovers the parts. -/
theorem parseParts_renderRel {p : PathParts} (hp : CleanParts p) (hne : p ≠ []) :
    parseParts (renderRel p) = p := by
  cases p with
  | nil => exact absurd rfl hne
  | cons c rest =>
    have hr : renderRel (c :: rest) = List.intercalate ['/'] (c :: rest) := rfl
    unfold parseParts
    rw [hr, List.splitOn_intercalate]
    · exact List.filter_eq_self.mpr (fun a ha => keepComp_of_clean (hp a ha))
    · intro l hl; exact (hp l hl).2.1
    · simp

/-- `resolve` is the identity on already-clean parts. -/
theorem resolveParts_eq_self {p : PathParts} (h : ∀ c ∈ p, c ≠ ['.', '.']) :
    resolveParts p = p := by
  have aux : ∀ (q acc : PathParts), (∀ c ∈ q, c ≠ ['.', '.']) →
      q.foldl (fun acc c => if c = ['.', '.'] then acc.dropLast else acc ++ [c]) acc =
        acc ++ q := by
    intro q
    induction q with
    | nil => intro acc _; simp
    | cons c rest ih =>
      intro acc hq
      have hc : c ≠ ['.', '.'] := hq c (List.mem_cons_self c rest)
      simp only [List.foldl_cons, if_neg hc]
      rw [ih (acc ++ [c]) (fun d hd => hq d (List.mem_cons_of_mem c hd))]
      simp
  unfold resolveParts
  rw [aux p [] h]
  simp

/-- A rendered absolute path with at least one component starts with the
separator. -/
theorem head?_renderAbs {p : PathParts} (h : p ≠ []) :
    (renderAbs p).head? = some '/' := by
  cases p with
  | nil => exact absurd rfl h
  | cons c rest => rfl

/-- Round trip for a path under the base directory: storing renders the
base-relative string and reading it back restores the resolved absolute
string byte-for-byte. -/
theorem c5_roundtrip_under (ctx : PathCtx) (t : PathParts)
    (hb : CleanParts ctx.base) (ht : CleanParts t) :
    toAbsolutePath ctx (toRelativePath ctx (renderAbs (ctx.base ++ t))) =
      renderAbs (ctx.base ++ t) := by
  have hclean : CleanParts (ctx.base ++ t) := by
    intro c hc
    rcases List.mem_append.mp hc with h | h
    · exact hb c h
    · exact ht c h
  have hparse : resolveParts (parseParts (renderAbs (ctx.base ++ t))) = ctx.base ++ t := by
    rw [parseParts_renderAbs hclean,
      resolveParts_eq_self (fun c hc => (hclean c hc).2.2.2)]
  have hpre : ctx.base <+: ctx.base ++ t := ⟨t, rfl⟩
  have hstarts : (renderAbs ctx.base).isPrefixOf (renderAbs (ctx.base ++ t)) = true := by
    rw [ List.isPrefixOf_iff_prefix]
    exact ⟨renderAbs t, (renderAbs_append _ _).symm⟩
  unfold toRelativePath
  rw [hparse, if_pos hstarts, if_pos hpre, List.drop_left]
  cases ht2 : t with
  | nil =>
      subst ht2
      have hdot : parseParts (renderRel []) = [] := by decide
      unfold toAbsolutePath
      rw [if_neg (by decide), hdot]
      rw [List.append_nil, resolveParts_eq_self (fun c hc => (hb c hc).2.2.2)]
  | cons c rest2 =>
      subst ht2
      have hcc : CleanComp c := ht c (List.mem_cons_self c rest2)
      have hcrest : parseParts (renderRel (c :: rest2)) = c :: rest2 :=
        parseParts_renderRel ht (by simp)
      cases hc : c with
      | nil => exact absurd hc hcc.1
      | cons ch ctail =>
          subst hc
          have hch : ch ≠ '/' := by
            intro h
            exact hcc.2.1 (h ▸ List.mem_cons_self ch ctail)
          have hhead : (renderRel ((ch :: ctail) :: rest2)).head? = some ch := by
            have : renderRel ((ch :: ctail) :: rest2) =
                (ch :: ctail) ++ renderAbs rest2 := intercalate_slash_cons _ _
            rw [this]; rfl
          unfold toAbsolutePath
          rw [if_neg (by rw [hhead]; intro h; exact hch (by injection h)), hcrest,
            resolveParts_eq_self (fun d hd => (hclean d hd).2.2.2)]

/-- A resolved absolute path outside the base directory is stored as the
absolute string itself and returned unchanged on read. -/
theorem c5_outside_base (ctx : PathCtx) (p : PathParts)
    (hp : CleanParts p) (hnp : ¬ ctx.base <+: p) (hne : p ≠ []) :
    toRelativePath ctx (renderAbs p) = renderAbs p ∧
    (renderAbs p).head? = some '/' ∧
    toAbsolutePath ctx (renderAbs p) = renderAbs p := by
  have hparse : resolveParts (parseParts (renderAbs p)) = p := by
    rw [parseParts_renderAbs hp, resolveParts_eq_self (fun c hc => (hp c hc).2.2.2)]
  refine ⟨?_, head?_renderAbs hne, ?_⟩
  · unfold toRelativePath
    rw [hparse]
    by_cases hb : (renderAbs ctx.base).isPrefixOf (renderAbs p) = true
    · rw [if_pos hb, if_neg hnp]
    · rw [if_neg hb]
  · unfold toAbsolutePath
    rw [if_pos (head?_renderAbs hne)]

/-- C5: for every resolved absolute path whose parts extend the base
directory's parts, storing it in the ledger (`_to_relative_path`) and
reading it back (`_to_absolute_path`) yields the original resolved absolute
string byte-for-byte; a resolved absolute path not under the base directory
is stored as the absolute string itself (it starts with the separator) and
is returned unchanged on read. -/
theorem c5_path_duality (ctx : PathCtx) (p : PathParts)
    (hb : CleanParts ctx.base) (hp : CleanParts p) :
    (ctx.base <+: p →
      toAbsolutePath ctx (toRelativePath ctx (renderAbs p)) = renderAbs p) ∧
    (¬ ctx.base <+: p → p ≠ [] →
      toRelativePath ctx (renderAbs p) = renderAbs p ∧
      (renderAbs p).head? = some '/' ∧
      toAbsolutePath ctx (renderAbs p) = renderAbs p) := by
  constructor
  · intro hpre
    obtain ⟨t, rfl⟩ := hpre
    exact c5_roundtrip_under ctx t hb
      (fun c hc => hp c (List.mem_append_right _ hc))
  · intro hnp hne
    exact c5_outside_base ctx p hp hnp hne

/-- Witness for C5: `"/b/x"` with base `"/b"` round-trips byte-for-byte;
`"/b/x"` with base `"/c"` is stored and returned as the absolute string. -/
theorem c5_path_duality_witness :
    toAbsolutePath ⟨[['b']]⟩ (toRelativePath ⟨[['b']]⟩ (renderAbs [['b'], ['x']])) =
      renderAbs [['b'], ['x']] ∧
    toRelativePath ⟨[['c']]⟩ (renderAbs [['b'], ['x']]) = renderAbs [['b'], ['x']] :=
  ⟨(c5_path_duality ⟨[['b']]⟩ [['b'], ['x']] (by decide) (by decide)).1 (by decide),
   ((c5_path_duality ⟨[['c']]⟩ [['b'], ['x']] (by decide) (by decide)).2
      (by decide) (by decide)).1⟩

/-! ### Dispatch / ledger-registration theorems -/

/-- C1: evaluation of `download_post` at a failing input.  Post 7 is flagged
deleted upstream, so `download_image` writes nothing (the filesystem stays
empty) — yet `download_post` reports the item "downloaded" and registers it
in the ledger via `mark_post_downloaded` (backend.py line 148 runs
unconditionally after line 145).  The claim says an item whose payload
download is skipped is never registered as downloaded; the code registers
it. -/
theorem c1_deleted_post_registered :
    (downloadPost ⟨[['b']]⟩ (some ⟨7, [], true, some ("u"), ['p','n','g']⟩) 7 0
        (renderAbs [['b'],['d']]) 1 (.response 200) [] emptyDB).1.2 = .downloaded ∧
    (downloadPost ⟨[['b']]⟩ (some ⟨7, [], true, some ("u"), ['p','n','g']⟩) 7 0
        (renderAbs [['b'],['d']]) 1 (.response 200) [] emptyDB).2.1 = [] ∧
    7 ∈ getDownloadedPosts 1
      (downloadPost ⟨[['b']]⟩ (some ⟨7, [], true, some ("u"), ['p','n','g']⟩) 7 0
        (renderAbs [['b'],['d']]) 1 (.response 200) [] emptyDB).2.2 := by
  refine ⟨rfl, rfl, by decide⟩

/-- C2: evaluation of the `process_pool_ids` skip-existing flow at a failing
input.  Pool 1 has post 42 recorded in the ledger but its backing file was
deleted out-of-band (the filesystem is empty).  The flow computes the
missing set from the unverified ledger, finds it empty, and skips the pool
— the pool is reported complete, the verifier never runs, and the stale row
survives; had the verifier run first, it would have removed the row and
post 42 would have appeared in the next missing-set computation. -/
theorem c2_stale_row_suppresses_redownload :
    processPoolSkipExisting ⟨[['b']]⟩ ⟨1, "p", [42], "c", 1⟩ []
        ⟨[⟨1, "p", "a", ['d'], 1⟩], [⟨42, 1, ['d','/','1','.','j','p','g'], 0⟩]⟩ =
      (none, ⟨[⟨1, "p", "a", ['d'], 1⟩], [⟨42, 1, ['d','/','1','.','j','p','g'], 0⟩]⟩) ∧
    (verifyDownloadedFiles ⟨[['b']]⟩ 1 []
        ⟨[⟨1, "p", "a", ['d'], 1⟩], [⟨42, 1, ['d','/','1','.','j','p','g'], 0⟩]⟩).1 = [42] ∧
    42 ∈ getMissingPosts 1 [42]
      (verifyDownloadedFiles ⟨[['b']]⟩ 1 []
        ⟨[⟨1, "p", "a", ['d'], 1⟩], [⟨42, 1, ['d','/','1','.','j','p','g'], 0⟩]⟩).2 := by
  refine ⟨by decide, by decide, by decide⟩

/-- C10: when the pool has no record in the `pools` table,
`verify_downloaded_files` returns the empty removed set and leaves the
database untouched — even when `downloaded_posts` rows referencing that
pool ID exist, since the function returns before reaching the
existence-check loop. -/
theorem c10_verify_without_pool_record (ctx : PathCtx) (pool_id : Nat)
    (fs : FileSystem) (db : DB) (h : getPoolInfo ctx pool_id db = none) :
    verifyDownloadedFiles ctx pool_id fs db = ([], db) := by
  simp only [verifyDownloadedFiles, h]

/-- Witness for C10: a database holding a downloaded-posts row for pool 5
but no pools row; verification removes nothing and changes nothing. -/
theorem c10_verify_without_pool_record_witness :
    verifyDownloadedFiles ⟨[['b']]⟩ 5 [] ⟨[], [⟨9, 5, ['x'], 0⟩]⟩ =
      ([], ⟨[], [⟨9, 5, ['x'], 0⟩]⟩) :=
  c10_verify_without_pool_record ⟨[['b']]⟩ 5 [] ⟨[], [⟨9, 5, ['x'], 0⟩]⟩ (by decide)

end E6dl

namespace E6dl

/-! ### Ledger-store set lemmas -/

/-- Membership in the downloaded-ID list is existence of an ItemRecord row
for the key. -/
theorem mem_getDownloadedPosts (pool_id x : Nat) (db : DB) :
    x ∈ getDownloadedPosts pool_id db ↔ RecordedDownloaded pool_id x db := by
  simp only [getDownloadedPosts, RecordedDownloaded, List.mem_map, List.mem_filter,
    beq_iff_eq]
  constructor
  · rintro ⟨r, ⟨hr, hpool⟩, hx⟩
    exact ⟨r, hr, hx, hpool⟩
  · rintro ⟨r, hr, hx, hpool⟩
    exact ⟨r, ⟨hr, hpool⟩, hx⟩

/-- `mark_post_downloaded` replaces the row with the same key: as a set the
downloaded IDs for a pool gain the marked ID when the pool matches and are
otherwise unchanged. -/
theorem mem_getDownloadedPosts_mark (ctx : PathCtx) (p pl x pool_id : Nat)
    (fp : PathStr) (pos : Nat) (db : DB) :
    (x ∈ getDownloadedPosts pool_id (markPostDownloaded ctx p pl fp pos db)) ↔
      ((p = x ∧ pl = pool_id) ∨ x ∈ getDownloadedPosts pool_id db) := by
  constructor
  · intro hmem
    obtain ⟨r, hrmem, hx⟩ := List.mem_map.mp hmem
    obtain ⟨hrtab, hpool⟩ := List.mem_filter.mp hrmem
    rcases List.mem_cons.mp hrtab with h1 | h1
    · subst h1
      exact Or.inl ⟨hx, beq_iff_eq.mp hpool⟩
    · obtain ⟨hrdb, _⟩ := List.mem_filter.mp h1
      exact Or.inr (List.mem_map.mpr ⟨r, List.mem_filter.mpr ⟨hrdb, hpool⟩, hx⟩)
  · intro h
    rcases h with ⟨hpx, hpl⟩ | hmem
    · subst hpx
      subst hpl
      exact List.mem_map.mpr ⟨⟨p, pl, toRelativePath ctx fp, pos⟩,
        List.mem_filter.mpr ⟨List.mem_cons_self _ _, beq_iff_eq.mpr rfl⟩, rfl⟩
    · obtain ⟨r, hrmem, hx⟩ := List.mem_map.mp hmem
      obtain ⟨hrdb, hpool⟩ := List.mem_filter.mp hrmem
      by_cases hkey : r.post_id = p ∧ r.pool_id = pl
      · refine List.mem_map.mpr ⟨⟨p, pl, toRelativePath ctx fp, pos⟩,
          List.mem_filter.mpr ⟨List.mem_cons_self _ _, ?_⟩, hkey.1.symm.trans hx⟩
        have hpid : pl = pool_id := hkey.2.symm.trans (beq_iff_eq.mp hpool)
        exact beq_iff_eq.mpr hpid
      · refine List.mem_map.mpr ⟨r, List.mem_filter.mpr
          ⟨List.mem_cons_of_mem _ (List.mem_filter.mpr ⟨hrdb, ?_⟩), hpool⟩, hx⟩
        by_cases h1 : r.post_id = p
        · by_cases h2 : r.pool_id = pl
          · exact absurd ⟨h1, h2⟩ hkey
          · have h2f : (r.pool_id == pl) = false := beq_eq_false_iff_ne.mpr h2
            simp [h2f]
        · have h1f : (r.post_id == p) = false := beq_eq_false_iff_ne.mpr h1
          simp [h1f]

/-- The downloaded-ID set after a sequence of `mark_post_downloaded` writes:
the original rows plus the keys written for this pool — independent of the
order of the writes. -/
theorem mem_getDownloadedPosts_applyMarks (ctx : PathCtx) (pool_id x : Nat)
    (ops : List MarkOp) (db : DB) :
    x ∈ getDownloadedPosts pool_id (applyMarks ctx ops db) ↔
      (x ∈ getDownloadedPosts pool_id db ∨
        ∃ o ∈ ops, o.post_id = x ∧ o.pool_id = pool_id) := by
  induction ops generalizing db with
  | nil => simp [applyMarks]
  | cons o rest ih =>
    have hstep : applyMarks ctx (o :: rest) db =
        applyMarks ctx rest
          (markPostDownloaded ctx o.post_id o.pool_id o.file_path o.position db) := rfl
    rw [hstep, ih, mem_getDownloadedPosts_mark]
    constructor
    · rintro ((⟨h1, h2⟩ | h) | ⟨o2, ho2, hk⟩)
      · exact Or.inr ⟨o, List.mem_cons_self o rest, h1, h2⟩
      · exact Or.inl h
      · exact Or.inr ⟨o2, List.mem_cons_of_mem o ho2, hk⟩
    · rintro (h | ⟨o2, ho2, hk⟩)
      · exact Or.inl (Or.inr h)
      · rcases List.mem_cons.mp ho2 with h2 | ho2r
        · subst h2
          exact Or.inl (Or.inl hk)
        · exact Or.inr ⟨o2, ho2r, hk⟩

/-- The missing set as a filter of the requested IDs by absence from the
ledger. -/
theorem getMissingPosts_eq_filter (pool_id : Nat) (ids : List Nat) (db : DB) :
    getMissingPosts pool_id ids db =
      ids.toFinset.filter (fun x => ¬ RecordedDownloaded pool_id x db) := by
  apply Finset.ext
  intro x
  simp [getMissingPosts, Finset.mem_sdiff, Finset.mem_filter, List.mem_toFinset,
    mem_getDownloadedPosts]

/-- C6: `get_missing_posts` returns exactly the set difference between the
given item IDs and the set of item IDs recorded as downloaded for the
collection in the ledger; and its value after a sequence of
`mark_post_downloaded` writes does not depend on the order of those
writes. -/
theorem c6_missing_posts_set_difference (ctx : PathCtx) (pool_id : Nat)
    (all_post_ids : List Nat) (db : DB) (ops ops' : List MarkOp)
    (hperm : ops.Perm ops') :
    (∀ x, x ∈ getMissingPosts pool_id all_post_ids db ↔
        (x ∈ all_post_ids ∧ ¬ RecordedDownloaded pool_id x db)) ∧
    getMissingPosts pool_id all_post_ids (applyMarks ctx ops db) =
      getMissingPosts pool_id all_post_ids (applyMarks ctx ops' db) := by
  constructor
  · intro x
    simp [getMissingPosts, Finset.mem_sdiff, List.mem_toFinset, mem_getDownloadedPosts]
  · apply Finset.ext
    intro x
    simp only [getMissingPosts, Finset.mem_sdiff, List.mem_toFinset,
      mem_getDownloadedPosts_applyMarks]
    constructor
    · rintro ⟨hall, hnd⟩
      refine ⟨hall, fun h => hnd ?_⟩
      rcases h with h | ⟨o, ho, hk⟩
      · exact Or.inl h
      · exact Or.inr ⟨o, hperm.mem_iff.mpr ho, hk⟩
    · rintro ⟨hall, hnd⟩
      refine ⟨hall, fun h => hnd ?_⟩
      rcases h with h | ⟨o, ho, hk⟩
      · exact Or.inl h
      · exact Or.inr ⟨o, hperm.mem_iff.mp ho, hk⟩

/-- Witness for C6 at concrete inputs: the missing set is the set
difference, and two orders of the same two writes agree. -/
theorem c6_missing_posts_set_difference_witness :
    (∀ x, x ∈ getMissingPosts 1 [1, 2, 3] emptyDB ↔
        (x ∈ [1, 2, 3] ∧ ¬ RecordedDownloaded 1 x emptyDB)) ∧
    getMissingPosts 1 [1, 2, 3]
        (applyMarks ⟨[['b']]⟩ [⟨1, 1, ['q'], 0⟩, ⟨2, 1, ['q'], 1⟩] emptyDB) =
      getMissingPosts 1 [1, 2, 3]
        (applyMarks ⟨[['b']]⟩ [⟨2, 1, ['q'], 1⟩, ⟨1, 1, ['q'], 0⟩] emptyDB) :=
  c6_missing_posts_set_difference ⟨[['b']]⟩ 1 [1, 2, 3] emptyDB
    [⟨1, 1, ['q'], 0⟩, ⟨2, 1, ['q'], 1⟩] [⟨2, 1, ['q'], 1⟩, ⟨1, 1, ['q'], 0⟩]
    (by decide)

end E6dl

namespace E6dl

/-! ### Update-checker theorem -/

/-- C8: `check_pool_for_updates` reports `has_updates = true` with
`old_count = 0` when no ledger record exists for the pool; with a stored
record it reports `has_updates = true` and a new-item count equal to the
number of live post IDs absent from the ledger when the live count exceeds
the stored count, and `has_updates = false` with zero new items when the
live count is equal or lower; and it returns the ledger unchanged. -/
theorem c8_update_check (ctx : PathCtx) (live : Pool) (db : DB) :
    (checkPoolForUpdates ctx live db).2 = db ∧
    (getPoolInfo ctx live.id db = none →
      (checkPoolForUpdates ctx live db).1 =
        ⟨live.id, live.name, true, 0, live.post_count, live.post_ids.length⟩) ∧
    (∀ stored, getPoolInfo ctx live.id db = some stored →
      (stored.post_count < live.post_count →
        (checkPoolForUpdates ctx live db).1 =
          ⟨live.id, live.name, true, stored.post_count, live.post_count,
            (live.post_ids.toFinset.filter
              (fun y => ¬ RecordedDownloaded live.id y db)).card⟩) ∧
      (live.post_count ≤ stored.post_count →
        (checkPoolForUpdates ctx live db).1 =
          ⟨live.id, live.name, false, stored.post_count, live.post_count, 0⟩)) := by
  cases h : getPoolInfo ctx live.id db with
  | none =>
      refine ⟨?_, fun _ => ?_, fun stored hs => nomatch hs⟩
      · simp [checkPoolForUpdates, h]
      · simp [checkPoolForUpdates, h]
  | some stored0 =>
      refine ⟨?_, ?_, ?_⟩
      · simp only [checkPoolForUpdates, h]
        split <;> rfl
      · intro hn
        exact nomatch hn
      · intro stored hs
        have hseq : stored0 = stored := by injection hs
        subst hseq
        constructor
        · intro hlt
          simp only [checkPoolForUpdates, h, if_pos hlt]
          rw [getMissingPosts_eq_filter]
        · intro hle
          have hnlt : ¬ stored0.post_count < live.post_count := not_lt.mpr hle
          simp only [checkPoolForUpdates, h, if_neg hnlt]

/-- Witness for C8: an unknown pool yields a full-backfill report and the
ledger is untouched. -/
theorem c8_update_check_witness :
    (checkPoolForUpdates ⟨[['b']]⟩ ⟨3, "n", [10, 11], "c", 2⟩ emptyDB).2 = emptyDB ∧
    (checkPoolForUpdates ⟨[['b']]⟩ ⟨3, "n", [10, 11], "c", 2⟩ emptyDB).1 =
      ⟨3, "n", true, 0, 2, 2⟩ :=
  ⟨(c8_update_check ⟨[['b']]⟩ ⟨3, "n", [10, 11], "c", 2⟩ emptyDB).1,
   (c8_update_check ⟨[['b']]⟩ ⟨3, "n", [10, 11], "c", 2⟩ emptyDB).2.1 (by decide)⟩

/-! ### Dispatch-ordinal theorem -/

/-- C9: every item of the work set is dispatched with the output path built
from its index in the authoritative full post-ID list of the pool — not
from the work set's iteration order: the assigned path is determined by the
post ID alone, the plan's paths are invariant under permutation of the work
set, and the index is genuinely the position of the post ID in the full
list. -/
theorem c9_ordinal_from_full_list (pool : Pool) (work work' : List Nat)
    (directory : PathStr) (extOf : Nat → PathStr) (hperm : work.Perm work') :
    (∀ post_id, post_id ∈ work →
      (post_id, pathJoin directory
        (fileName (pool.post_ids.indexOf post_id) (extOf post_id))) ∈
        dispatchPlan pool work directory extOf) ∧
    (∀ post_id path, (post_id, path) ∈ dispatchPlan pool work directory extOf →
      path = pathJoin directory
        (fileName (pool.post_ids.indexOf post_id) (extOf post_id))) ∧
    (∀ post_id path, (post_id, path) ∈ dispatchPlan pool work directory extOf ↔
      (post_id, path) ∈ dispatchPlan pool work' directory extOf) ∧
    (∀ post_id, post_id ∈ pool.post_ids →
      pool.post_ids.get? (pool.post_ids.indexOf post_id) = some post_id) := by
  refine ⟨?_, ?_, ?_, ?_⟩
  · intro post_id h
    exact List.mem_map.mpr ⟨post_id, h, rfl⟩
  · intro post_id path h
    obtain ⟨a, _, heq⟩ := List.mem_map.mp h
    obtain ⟨h1, h2⟩ := Prod.mk.injEq .. ▸ heq
    exact h1 ▸ h2.symm
  · intro post_id path
    exact (hperm.map _).mem_iff
  · intro post_id h
    exact List.indexOf_get? h

/-- Witness for C9: in a work set listed in reverse order, post 20 is still
dispatched with the ordinal taken from the full list `[10, 20]`. -/
theorem c9_ordinal_from_full_list_witness :
    (20, pathJoin ['/', 'b']
      (fileName ((⟨1, "p", [10, 20], "c", 2⟩ : Pool).post_ids.indexOf 20)
        (['p', 'n', 'g']))) ∈
      dispatchPlan ⟨1, "p", [10, 20], "c", 2⟩ [20, 10] ['/', 'b']
        (fun _ => ['p', 'n', 'g']) :=
  (c9_ordinal_from_full_list ⟨1, "p", [10, 20], "c", 2⟩ [20, 10] [10, 20]
    ['/', 'b'] (fun _ => ['p', 'n', 'g']) (by decide)).1 20 (by decide)

end E6dl
